import Mathlib

/-!
Shallow embedding of the per-function type-checking context operations of
`src/compiler/rustc_typeck/src/check/fn_ctxt_impl.rs`.

Types (`Ty`), generic arguments, adjustments and diagnostics are modelled as
inductive data; the mutable `FnCtxt`/`TypeckResults` state is modelled as an
explicit record (`Fcx`) threaded through the operations.  Fallible internal
invariants (`bug!` / `span_bug!`) are modelled with `Except TypeckBug`.
Collaborator calls (inference-variable resolution, obligation solving,
expression checking) are represented by explicit inputs or recorded events.
-/

namespace RustcTypeck

/-- Signed integer kinds (`rustc_ast::IntTy`). -/
inductive IntTy
  | i8 | i16 | i32 | i64 | i128 | isize
  deriving DecidableEq, Repr

/-- Unsigned integer kinds (`rustc_ast::UintTy`). -/
inductive UintTy
  | u8 | u16 | u32 | u64 | u128 | usize
  deriving DecidableEq, Repr

/-- Floating point kinds (`rustc_ast::FloatTy`). -/
inductive FloatTy
  | f32 | f64
  deriving DecidableEq, Repr

mutual

/-- The fragment of `rustc_middle::ty::Ty` exercised by this file: the generic
error type, primitives, tuples, function items/pointers, nominal types,
references, inference variables and opaque types. -/
inductive Ty
  | error
  | bool
  | char
  | int (t : IntTy)
  | uint (t : UintTy)
  | float (t : FloatTy)
  | never
  | tuple (ts : TyList)
  | fnDef (defId : Nat)
  | fnPtr
  | adt (defId : Nat)
  | str
  | ref (t : Ty)
  | infer (v : Nat)
  | opaqueType (defId : Nat)

/-- The component list of a tuple type (a mutual companion of `Ty`). -/
inductive TyList
  | nil
  | cons (t : Ty) (ts : TyList)

end

deriving instance DecidableEq for Ty
deriving instance DecidableEq for TyList
deriving instance Repr for Ty
deriving instance Repr for TyList

/-- The number of components of a tuple type. -/
def TyList.length : TyList → Nat
  | .nil => 0
  | .cons _ ts => ts.length + 1

/-- View the components of a tuple type as an ordinary list. -/
def TyList.toList : TyList → List Ty
  | .nil => []
  | .cons t ts => t :: ts.toList

mutual

/-- `Ty::references_error`: does the type contain the generic error type? -/
def Ty.references_error : Ty → Bool
  | .error => true
  | .tuple ts => ts.referencesError
  | .ref t => t.references_error
  | _ => false

/-- Auxiliary recursion of `Ty.references_error` over tuple components. -/
def TyList.referencesError : TyList → Bool
  | .nil => false
  | .cons t ts => t.references_error || ts.referencesError

end

/-- `Ty::is_unit`: the zero-length tuple. -/
def Ty.is_unit : Ty → Bool
  | .tuple .nil => true
  | _ => false

/-- The unit type `()` (`tcx.mk_unit()`). -/
def Ty.unit : Ty := .tuple .nil

/-- Mutability of an automatic reference borrow
(`rustc_middle::ty::adjustment::AutoBorrowMutability`). -/
inductive AutoBorrowMutability
  | mut (allowTwoPhase : Bool)
  | not
  deriving DecidableEq, Repr

/-- `rustc_middle::ty::adjustment::AutoBorrow` (region erased). -/
inductive AutoBorrow
  | ref (mutbl : AutoBorrowMutability)
  | rawPtr (isMut : Bool)
  deriving DecidableEq, Repr

/-- `rustc_middle::ty::adjustment::Adjust`: one implicit coercion step.
`deref true` is an overloaded (`Deref`-trait) dereference. -/
inductive Adjust
  | neverToAny
  | deref (overloaded : Bool)
  | borrow (b : AutoBorrow)
  | pointer
  deriving DecidableEq, Repr

/-- `rustc_middle::ty::adjustment::Adjustment`: a coercion step with its
target type. -/
structure Adjustment where
  kind : Adjust
  target : Ty
  deriving DecidableEq, Repr

/-- A generic argument (`rustc_middle::ty::subst::GenericArg`).
`inferVar` is a fresh inference variable created by `var_for_def`;
`boundVar` is a canonical bound variable produced by canonicalization. -/
inductive GenArg
  | ty (t : Ty)
  | lifetime (r : Nat)
  | const (c : Nat)
  | inferVar (v : Nat)
  | boundVar (b : Nat)
  deriving DecidableEq, Repr

/-- Is the generic argument an inference variable? -/
def GenArg.isInfVar : GenArg → Bool
  | .inferVar _ => true
  | _ => false

/-- `UserSubsts`: the substitution the user wrote, plus the optional
user-written `Self` type. -/
structure UserSubsts where
  substs : List GenArg
  user_self_ty : Option Ty
  deriving DecidableEq, Repr

/-- A canonicalized `UserType::TypeOf` user type annotation. -/
structure CanonicalUserType where
  def_id : Nat
  value : UserSubsts
  deriving DecidableEq, Repr

/-- Canonicalize a list of generic arguments: every inference variable is
replaced with a canonical bound variable, numbered in order of first
occurrence (`seen` maps variable ids already encountered to their bound
index, `next` is the next free bound index); all other arguments are kept. -/
def canonicalizeArgs : List GenArg → List (Nat × Nat) → Nat → List GenArg
  | [], _, _ => []
  | .inferVar v :: rest, seen, next =>
    match seen.lookup v with
    | some b => .boundVar b :: canonicalizeArgs rest seen next
    | none => .boundVar next :: canonicalizeArgs rest ((v, next) :: seen) (next + 1)
  | a :: rest, seen, next => a :: canonicalizeArgs rest seen next

/-- `infcx.canonicalize_user_type_annotation` on a `UserType::TypeOf`. -/
def canonicalize_user_type_ann (def_id : Nat) (us : UserSubsts) :
    CanonicalUserType :=
  { def_id := def_id,
    value := { substs := canonicalizeArgs us.substs [] 0,
               user_self_ty := us.user_self_ty } }

/-- Is each generic argument the canonical bound variable with the expected
index (`n`, `n+1`, ...)? -/
def isCanonicalSeq : List GenArg → Nat → Bool
  | [], _ => true
  | .boundVar b :: rest, n => b == n && isCanonicalSeq rest (n + 1)
  | _, _ => false

/-- `CanonicalUserType::is_identity`: no user `Self` type and every
substituted argument is exactly the canonical variable of its own index. -/
def CanonicalUserType.is_identity (c : CanonicalUserType) : Bool :=
  (match c.value.user_self_ty with
   | some _ => false
   | none => isCanonicalSeq c.value.substs 0)

/-- `rustc_hir::def::DefKind`, restricted to the kind written here. -/
inductive DefKind
  | assocFn
  deriving DecidableEq, Repr

/-- An obligation registered with the Obligation Engine.  `cause` packs the
span/cause-code data the source threads through (opaque to the claims). -/
inductive Obligation
  | bound (ty : Ty) (defId : Nat) (cause : Nat)
  | wellFormed (ty : Ty) (span : Nat)
  deriving DecidableEq, Repr

/-- `Result<(DefKind, DefId), ErrorReported>`: a resolved type-dependent
definition, or the tombstone marking an already-reported failure. -/
inductive Resolution
  | ok (kind : DefKind) (defId : Nat)
  | errorReported
  deriving DecidableEq, Repr

/-- The mutable per-body checking state: the Result Store tables
(`TypeckResults`), the body-wide error flags, the deferred sizedness queue
and the obligations registered with the fulfillment context. -/
structure Fcx where
  node_types : List (Nat × Ty) := []
  adjustments : List (Nat × List Adjustment) := []
  type_dependent_defs : List (Nat × Resolution) := []
  node_substs : List (Nat × List GenArg) := []
  user_provided_types : List (Nat × CanonicalUserType) := []
  has_errors : Bool := false
  tainted_by_errors : Bool := false
  deferred_sized_obligations : List (Ty × Nat × Nat) := []
  obligations : List Obligation := []
  deriving DecidableEq, Repr

/-- Fatal internal-consistency violations (`bug!` / `span_bug!`). -/
inductive TypeckBug
  | composeAdjustments
  | noTypeForNode
  deriving DecidableEq, Repr

/-- `FnCtxt::write_ty`: record `ty` for node `id`; if `ty` contains an error
type, also set the local `has_errors` flag and taint the whole body. -/
def write_ty (fcx : Fcx) (id : Nat) (ty : Ty) : Fcx :=
  let fcx := { fcx with node_types := (id, ty) :: fcx.node_types }
  if ty.references_error then
    { fcx with has_errors := true, tainted_by_errors := true }
  else
    fcx

/-- `FnCtxt::node_ty`: look up the recorded type of a node.  A missing entry
is the generic error type when the body is already tainted by errors, and a
fatal internal bug otherwise. -/
def node_ty (fcx : Fcx) (id : Nat) : Except TypeckBug Ty :=
  match fcx.node_types.lookup id with
  | some t => .ok t
  | none =>
    if fcx.tainted_by_errors then .ok Ty.error
    else .error TypeckBug.noTypeForNode

/-- The `Sized` lang item's def-id (`tcx.require_lang_item(LangItem::Sized)`,
a fixed item of the external type context). -/
def sizedLangItem : Nat := 0

/-- `FnCtxt::register_bound`: register `ty: def_id` with the fulfillment
context, unless `ty` contains an error type. -/
def register_bound (fcx : Fcx) (ty : Ty) (def_id : Nat) (cause : Nat) : Fcx :=
  if ¬ ty.references_error then
    { fcx with obligations := fcx.obligations ++ [.bound ty def_id cause] }
  else
    fcx

/-- `FnCtxt::require_type_meets`: register a bound obligation for `ty`. -/
def require_type_meets (fcx : Fcx) (ty : Ty) (cause : Nat) (def_id : Nat) :
    Fcx :=
  register_bound fcx ty def_id cause

/-- `FnCtxt::require_type_is_sized`: require `ty: Sized` now, unless `ty`
contains an error type. -/
def require_type_is_sized (fcx : Fcx) (ty : Ty) (cause : Nat) : Fcx :=
  if ¬ ty.references_error then
    require_type_meets fcx ty cause sizedLangItem
  else
    fcx

/-- `FnCtxt::require_type_is_sized_deferred`: queue a sizedness obligation
for the post-walk drain, unless `ty` contains an error type. -/
def require_type_is_sized_deferred (fcx : Fcx) (ty : Ty) (span : Nat)
    (code : Nat) : Fcx :=
  if ¬ ty.references_error then
    { fcx with deferred_sized_obligations :=
        fcx.deferred_sized_obligations ++ [(ty, span, code)] }
  else
    fcx

/-- The tail of `FnCtxt::check_block_with_expected`: the coercion
accumulator's result `accum` is forced to the generic error type when the
body's `has_errors` flag is set or `accum` itself contains an error type,
and the outcome is recorded for the block node. -/
def finish_block (fcx : Fcx) (blkId : Nat) (accum : Ty) : Fcx :=
  let ty := if fcx.has_errors || accum.references_error then Ty.error else accum
  write_ty fcx blkId ty

/-- Is the chain the single never-to-any adjustment? -/
def isNeverToAnyChain : List Adjustment → Bool
  | [⟨Adjust.neverToAny, _⟩] => true
  | _ => false

/-- Is the chain a dereference followed by a reference borrow (a reborrow)? -/
def isDerefReborrowChain : List Adjustment → Bool
  | [⟨Adjust.deref _, _⟩, ⟨Adjust.borrow (AutoBorrow.ref _), _⟩] => true
  | _ => false

/-- Does the chain begin with a dereference? -/
def startsWithDeref : List Adjustment → Bool
  | ⟨Adjust.deref _, _⟩ :: _ => true
  | _ => false

/-- `FnCtxt::apply_adjustments`: record an adjustment chain for an
expression.  An empty chain is discarded; a vacant entry is filled; composing
onto the single never-to-any adjustment keeps the existing entry; a new chain
beginning with a dereference replaces an existing dereference-plus-reborrow
chain; any other composition is a fatal internal-consistency bug.  (The
mutable-autoborrow fixup `convert_place_derefs_to_mutable` rewrites method
resolutions of subexpressions and is outside this store model.) -/
def apply_adjustments (fcx : Fcx) (exprId : Nat) (adj : List Adjustment) :
    Except TypeckBug Fcx :=
  if adj.isEmpty then .ok fcx
  else
    match fcx.adjustments.lookup exprId with
    | none => .ok { fcx with adjustments := (exprId, adj) :: fcx.adjustments }
    | some entry =>
      match entry, adj with
      | [⟨Adjust.neverToAny, _⟩], _ => .ok fcx
      | [⟨Adjust.deref _, _⟩, ⟨Adjust.borrow (AutoBorrow.ref _), _⟩],
        ⟨Adjust.deref _, _⟩ :: _ =>
        .ok { fcx with adjustments := (exprId, adj) :: fcx.adjustments }
      | _, _ => .error TypeckBug.composeAdjustments

/-- `FnCtxt::write_resolution`: record a type-dependent definition. -/
def write_resolution (fcx : Fcx) (hir_id : Nat) (r : Resolution) : Fcx :=
  { fcx with type_dependent_defs := (hir_id, r) :: fcx.type_dependent_defs }

/-- `FnCtxt::write_substs`: record a substitution, skipping the no-op
(empty) substitution. -/
def write_substs (fcx : Fcx) (node_id : Nat) (substs : List GenArg) : Fcx :=
  if ¬ substs.isEmpty then
    { fcx with node_substs := (node_id, substs) :: fcx.node_substs }
  else
    fcx

/-- `FnCtxt::write_user_type_annotation`: store the canonicalized user type
annotation, skipping identity substitutions. -/
def write_user_type_ann (fcx : Fcx) (hir_id : Nat)
    (c : CanonicalUserType) : Fcx :=
  if ¬ c.is_identity then
    { fcx with user_provided_types := (hir_id, c) :: fcx.user_provided_types }
  else
    fcx

/-- `ty::Generics` of a method: the number of parameters belonging to the
parent (impl/trait, including `Self`) and the method's own parameters. -/
structure Generics where
  parent_count : Nat
  num_params : Nat
  deriving DecidableEq, Repr

/-- The signature of a confirmed method (`ty::FnSig`). -/
structure FnSig where
  inputs : List Ty
  output : Ty
  c_variadic : Bool
  deriving DecidableEq, Repr

/-- A confirmed method callee (`MethodCallee`). -/
structure MethodCallee where
  def_id : Nat
  substs : List GenArg
  sig : FnSig
  deriving DecidableEq, Repr

/-- `InternalSubsts::for_item` as used in `write_method_call`: for each of
the item's `total` generic parameters, parent-level slots (`index <
parent_count`) get a fresh inference variable from `var_for_def` (`fresh`),
and the method's own slots keep `method.substs[i]`. -/
def for_item (total parent_count : Nat) (msubsts : List GenArg)
    (fresh : Nat → GenArg) : List GenArg :=
  (List.range total).map fun i =>
    if i < parent_count then fresh i else msubsts.getD i (.ty .error)

/-- `FnCtxt::write_method_call`: record the resolution and substitution of a
confirmed method call, and — when the substitution is not the no-op and the
method has generic parameters of its own — store a user type annotation in
which every parent-level (impl/trait) parameter of the substitution is
replaced by a fresh inference variable and no user `Self` type is kept.
`generics` is the external `tcx.generics_of` table and `fresh` the inference
variable supply of `var_for_def`. -/
def write_method_call (fcx : Fcx) (generics : Nat → Generics)
    (fresh : Nat → GenArg) (hir_id : Nat) (m : MethodCallee) : Fcx :=
  let fcx := write_resolution fcx hir_id (.ok .assocFn m.def_id)
  let fcx := write_substs fcx hir_id m.substs
  if ¬ m.substs.isEmpty then
    let g := generics m.def_id
    if ¬ g.num_params = 0 then
      let user_substs : UserSubsts :=
        { substs := for_item (g.parent_count + g.num_params) g.parent_count
            m.substs fresh,
          user_self_ty := none }
      write_user_type_ann fcx hir_id
        (canonicalize_user_type_ann m.def_id user_substs)
    else fcx
  else fcx

/-- `rustc_middle::ty::error::UnconstrainedNumeric`: the verdict of
`type_is_unconstrained_numeric` on an inference variable. -/
inductive UnconstrainedNumeric
  | unconstrainedInt
  | unconstrainedFloat
  | neither
  deriving DecidableEq, Repr

/-- Modelled from the spec: the fallback mode enum (defined in the
surrounding `check` module, not part of this file); the source distinguishes
only the all-variables mode (`FallbackMode::All`, matched in
`fallback_if_possible`) from the mode that ignores opaque-type variables. -/
inductive FallbackMode
  | noOpaque
  | all
  deriving DecidableEq, Repr

/-- `FnCtxt::fallback_if_possible`: choose the default type for a
still-unresolved inference variable, or `none` when no fallback applies (the
source returns `false` and leaves the variable alone).  The collaborator
queries are explicit inputs: `tainted` (`is_tainted_by_errors`), `numeric`
(`type_is_unconstrained_numeric`), `diverges` (`type_var_diverges`),
`opaqueVar` (the `opaque_types_vars` entry for the variable) and
`divergingDefault` (`tcx.mk_diverging_default()`). -/
def fallback_if_possible (tainted : Bool) (numeric : UnconstrainedNumeric)
    (diverges : Bool) (opaqueVar : Option Ty) (divergingDefault : Ty)
    (mode : FallbackMode) : Option Ty :=
  if tainted then some Ty.error
  else
    match numeric with
    | .unconstrainedInt => some (.int .i32)
    | .unconstrainedFloat => some (.float .f64)
    | .neither =>
      if diverges then some divergingDefault
      else
        match mode with
        | .all =>
          match opaqueVar with
          | some opaque_ty => some opaque_ty
          | none => none
        | .noOpaque => none

/-- A supplied call argument, as the argument checker observes it: its node
id, whether it is a closure literal (`ExprKind::Closure`), and the type the
collaborator `check_expr_with_expectation` computes for it. -/
structure Arg where
  id : Nat
  isClosure : Bool
  ty : Ty
  deriving DecidableEq, Repr

/-- Error codes of the arity diagnostics of `check_argument_types`. -/
inductive ErrCode
  | e0057
  | e0060
  | e0061
  deriving DecidableEq, Repr

/-- Diagnostics emitted by `check_argument_types`: the arity mismatch report
(`param_count_error`), the `E0059` non-tuple tuple-call report, and the
C-variadic promotion report (`variadic_error`). -/
inductive Diag
  | arityMismatch (code : ErrCode) (expected got : Nat)
      (cVariadic suggUnit : Bool)
  | tupleNotTuple
  | variadicPromotion (argIdx : Nat) (cast : String)
  deriving DecidableEq, Repr

/-- Is the diagnostic an arity (`param_count_error`) diagnostic? -/
def isArityDiag : Diag → Bool
  | .arityMismatch .. => true
  | _ => false

/-- One observable step of `check_argument_types`: an argument checked
against a formal type and a coercion target, a C-variadic extra argument
checked against no formal type, or the opportunistic
`select_obligations_where_possible` between the two passes. -/
inductive CheckEvent
  | checkedArg (idx : Nat) (formal coerceTarget : Ty)
  | checkedVariadicExtra (idx : Nat)
  | oppSolve
  deriving DecidableEq, Repr

/-- Does the event check the argument at index `i`? -/
def eventChecksArg (i : Nat) : CheckEvent → Bool
  | .checkedArg j _ _ => i == j
  | .checkedVariadicExtra j => i == j
  | .oppSolve => false

/-- Position of the first element satisfying a predicate. -/
def firstMatchPos (p : α → Bool) : List α → Option Nat
  | [] => none
  | x :: xs => if p x then some 0 else (firstMatchPos p xs).map (· + 1)

/-- Position of the first event checking argument `i`. -/
def checkedPosition (evs : List CheckEvent) (i : Nat) : Option Nat :=
  firstMatchPos (eventChecksArg i) evs

/-- The default argument used by positional lookups. -/
def defArg : Arg := ⟨0, false, Ty.error⟩

/-- Is the event the between-pass opportunistic solve? -/
def isOppSolve : CheckEvent → Bool
  | .oppSolve => true
  | _ => false

/-- `FnCtxt::err_args`: a list of manufactured error types. -/
def err_args (len : Nat) : List Ty := List.replicate len Ty.error

/-- The arity-reconciliation block of `check_argument_types` computing
`formal_tys`, the (possibly emptied) positional expectations, and the arity
diagnostics: tuple-call sugar demands a tuple first formal of matching
arity, an exact match uses the formals directly, C-variadics accept any
arity at least the declared count, and any other mismatch is reported with
the unit-value suggestion when a sole unit argument was expected and none
supplied. -/
def reconcile_arity (fn_inputs expected_arg_tys : List Ty)
    (nargs supplied_arg_count : Nat) (c_variadic tuple_arguments : Bool) :
    List Ty × List Ty × List Diag :=
  if tuple_arguments then
    match fn_inputs.headD Ty.error with
    | .tuple arg_types =>
      if ¬ arg_types.length = nargs then
        (err_args nargs, [],
         [.arityMismatch .e0057 arg_types.length nargs false false])
      else
        let expected2 :=
          match expected_arg_tys.head? with
          | some (.tuple tys) => tys.toList
          | some _ => []
          | none => []
        (arg_types.toList, expected2, [])
    | _ => (err_args nargs, [], [.tupleNotTuple])
  else if fn_inputs.length = supplied_arg_count then
    (fn_inputs, expected_arg_tys, [])
  else if c_variadic then
    if supplied_arg_count ≥ fn_inputs.length then
      (fn_inputs, expected_arg_tys, [])
    else
      (err_args supplied_arg_count, [],
       [.arityMismatch .e0060 fn_inputs.length supplied_arg_count true false])
  else
    let sugg_unit :=
      if expected_arg_tys.length = 1 ∧ supplied_arg_count = 0 then
        (expected_arg_tys.headD Ty.error).is_unit
      else if fn_inputs.length = 1 ∧ supplied_arg_count = 0 then
        (fn_inputs.headD Ty.error).is_unit
      else false
    (err_args supplied_arg_count, [],
     [.arityMismatch .e0061 fn_inputs.length supplied_arg_count false
        sugg_unit])

/-- One pass of the two-pass argument loop: check, in order, every argument
whose closure-ness equals `check_closures`, recording the check event (with
the formal type and the coercion target) and the type written for the
argument's node.  `idx` is the index of the first argument of `args` in the
full argument list. -/
def checkPass (args : List Arg) (formal_tys expected_tys : List Ty)
    (idx : Nat) (check_closures : Bool) :
    List CheckEvent × List (Nat × Ty) :=
  match args with
  | [] => ([], [])
  | a :: rest =>
    let rec_result := checkPass rest formal_tys expected_tys (idx + 1)
      check_closures
    if a.isClosure = check_closures then
      (.checkedArg idx (formal_tys.getD idx Ty.error)
          (expected_tys.getD idx Ty.error) :: rec_result.1,
       (a.id, a.ty) :: rec_result.2)
    else
      rec_result

/-- The C-variadic promotion screen: the cast hint of `variadic_error` for
the types C would implicitly promote (`f32`, `i8`/`i16`/`bool`, `u8`/`u16`,
function items), and `none` (no diagnostic) for every other type. -/
def variadicDiag : Ty → Option String
  | .float .f32 => some "c_double"
  | .int .i8 => some "c_int"
  | .int .i16 => some "c_int"
  | .bool => some "c_int"
  | .uint .u8 => some "c_uint"
  | .uint .u16 => some "c_uint"
  | .fnDef _ => some "fn pointer"
  | _ => none

/-- The trailing C-variadic loop of `check_argument_types`: each extra
argument is checked (its type recorded) against no formal type, and a
promotion diagnostic is emitted when its type is one of the implicitly
promoted kinds.  `idx` is the absolute index of the first extra argument. -/
def variadicPass (args : List Arg) (idx : Nat) :
    List CheckEvent × List (Nat × Ty) × List Diag :=
  match args with
  | [] => ([], [], [])
  | a :: rest =>
    let rec_result := variadicPass rest (idx + 1)
    (.checkedVariadicExtra idx :: rec_result.1,
     (a.id, a.ty) :: rec_result.2.1,
     (match variadicDiag a.ty with
      | some cast => [.variadicPromotion idx cast]
      | none => []) ++ rec_result.2.2)

/-- The observable outcome of `check_argument_types`: the reconciled formal
types, the diagnostics, the ordered check events, the per-node types written
by checking the arguments, and the implied-bound well-formedness obligations
registered up front. -/
structure ArgOut where
  formal_tys : List Ty
  diags : List Diag
  events : List CheckEvent
  writes : List (Nat × Ty)
  wf_obligations : List Obligation
  deriving DecidableEq, Repr

/-- `FnCtxt::check_argument_types`: register a well-formedness obligation per
formal/argument pair, reconcile arity, then check the arguments in two
passes over the first `t` arguments — non-closures first, then, after the
opportunistic solve, closures — and finally check the C-variadic extras
against no formal type.  The coercion target per argument is the positional
expectation when present, else the formal type
(`expected.only_has_type(self).unwrap_or(formal_ty)`). -/
def check_argument_types (fn_inputs expected_arg_tys : List Ty)
    (args : List Arg) (c_variadic tuple_arguments : Bool) : ArgOut :=
  let supplied_arg_count := if tuple_arguments then 1 else args.length
  let wf := (fn_inputs.zip args).map fun ta =>
    Obligation.wellFormed ta.1 ta.2.id
  let expected_arg_count := fn_inputs.length
  let reconciled := reconcile_arity fn_inputs expected_arg_tys args.length
    supplied_arg_count c_variadic tuple_arguments
  let formal_tys := reconciled.1
  let expected2 := reconciled.2.1
  let expected_final := if ¬ expected2.isEmpty then expected2 else formal_tys
  let t := if c_variadic then expected_arg_count
    else if tuple_arguments then args.length
    else supplied_arg_count
  let pass1 := checkPass (args.take t) formal_tys expected_final 0 false
  let pass2 := checkPass (args.take t) formal_tys expected_final 0 true
  let extras :=
    if c_variadic then
      variadicPass (args.drop expected_arg_count) expected_arg_count
    else ([], [], [])
  { formal_tys := formal_tys,
    diags := reconciled.2.2 ++ extras.2.2,
    events := pass1.1 ++ CheckEvent.oppSolve :: (pass2.1 ++ extras.1),
    writes := pass1.2 ++ pass2.2 ++ extras.2.1,
    wf_obligations := wf }

/-! ## Theorems -/

/-- Canonicalization preserves the length of the argument list. -/
theorem canonicalizeArgs_length (l : List GenArg) (seen : List (Nat × Nat))
    (next : Nat) : (canonicalizeArgs l seen next).length = l.length := by
  induction l generalizing seen next with
  | nil => rfl
  | cons a rest ih =>
    cases a <;> simp only [canonicalizeArgs, List.length_cons, ih]
    rename_i v
    cases hs : seen.lookup v <;> simp [canonicalizeArgs, ih]

/-- Canonicalization acts positionally: an inference variable becomes some
canonical bound variable, and every other argument is kept unchanged. -/
theorem canonicalizeArgs_getD (l : List GenArg) (seen : List (Nat × Nat))
    (next k : Nat) (hk : k < l.length) :
    ((l.getD k (.ty .error)).isInfVar = true →
      ∃ b, (canonicalizeArgs l seen next).getD k (.ty .error)
        = .boundVar b) ∧
    ((l.getD k (.ty .error)).isInfVar = false →
      (canonicalizeArgs l seen next).getD k (.ty .error)
        = l.getD k (.ty .error)) := by
  induction l generalizing seen next k with
  | nil => exact absurd hk (by simp)
  | cons a rest ih =>
    cases k with
    | zero =>
      cases a with
      | inferVar v =>
        cases hs : seen.lookup v with
        | none =>
          exact ⟨fun _ => ⟨next, by simp [canonicalizeArgs, hs]⟩,
            fun hfalse => by simp [GenArg.isInfVar] at hfalse⟩
        | some b =>
          exact ⟨fun _ => ⟨b, by simp [canonicalizeArgs, hs]⟩,
            fun hfalse => by simp [GenArg.isInfVar] at hfalse⟩
      | ty t => exact ⟨fun h => by simp [GenArg.isInfVar] at h,
          fun _ => by simp [canonicalizeArgs]⟩
      | lifetime r => exact ⟨fun h => by simp [GenArg.isInfVar] at h,
          fun _ => by simp [canonicalizeArgs]⟩
      | const c => exact ⟨fun h => by simp [GenArg.isInfVar] at h,
          fun _ => by simp [canonicalizeArgs]⟩
      | boundVar b => exact ⟨fun h => by simp [GenArg.isInfVar] at h,
          fun _ => by simp [canonicalizeArgs]⟩
    | succ k0 =>
      have hk0 : k0 < rest.length := by simpa using hk
      cases a with
      | inferVar v =>
        cases hs : seen.lookup v with
        | none =>
          have := ih ((v, next) :: seen) (next + 1) k0 hk0
          exact ⟨fun h => by
              rcases this.1 (by simpa using h) with ⟨b, hb⟩
              exact ⟨b, by simpa [canonicalizeArgs, hs] using hb⟩,
            fun h => by
              have := this.2 (by simpa using h)
              simpa [canonicalizeArgs, hs] using this⟩
        | some b0 =>
          have := ih seen next k0 hk0
          exact ⟨fun h => by
              rcases this.1 (by simpa using h) with ⟨b, hb⟩
              exact ⟨b, by simpa [canonicalizeArgs, hs] using hb⟩,
            fun h => by
              have := this.2 (by simpa using h)
              simpa [canonicalizeArgs, hs] using this⟩
      | ty t =>
        have := ih seen next k0 hk0
        exact ⟨fun h => by
            rcases this.1 (by simpa using h) with ⟨b, hb⟩
            exact ⟨b, by simpa [canonicalizeArgs] using hb⟩,
          fun h => by
            have := this.2 (by simpa using h)
            simpa [canonicalizeArgs] using this⟩
      | lifetime r =>
        have := ih seen next k0 hk0
        exact ⟨fun h => by
            rcases this.1 (by simpa using h) with ⟨b, hb⟩
            exact ⟨b, by simpa [canonicalizeArgs] using hb⟩,
          fun h => by
            have := this.2 (by simpa using h)
            simpa [canonicalizeArgs] using this⟩
      | const c =>
        have := ih seen next k0 hk0
        exact ⟨fun h => by
            rcases this.1 (by simpa using h) with ⟨b, hb⟩
            exact ⟨b, by simpa [canonicalizeArgs] using hb⟩,
          fun h => by
            have := this.2 (by simpa using h)
            simpa [canonicalizeArgs] using this⟩
      | boundVar b1 =>
        have := ih seen next k0 hk0
        exact ⟨fun h => by
            rcases this.1 (by simpa using h) with ⟨b, hb⟩
            exact ⟨b, by simpa [canonicalizeArgs] using hb⟩,
          fun h => by
            have := this.2 (by simpa using h)
            simpa [canonicalizeArgs] using this⟩

/-- The substitution built by `for_item` has one slot per generic
parameter, fresh variables on parent slots, and the method's own arguments
elsewhere. -/
theorem for_item_getD (total parent_count : Nat) (msubsts : List GenArg)
    (fresh : Nat → GenArg) (i : Nat) (hi : i < total) :
    (for_item total parent_count msubsts fresh).getD i (.ty .error)
      = if i < parent_count then fresh i
        else msubsts.getD i (.ty .error) := by
  simp [for_item, List.getD, List.getElem?_map, List.getElem?_range, hi]

/-- C1: `node_ty` behaves asymmetrically on a missing entry: with no
recorded type it is a fatal internal bug when the body is not tainted by
errors and the generic error type when it is; and for every node of a
fully-checked body (every node has a recorded type) the lookup succeeds. -/
theorem node_ty_missing_entry_asymmetry (fcx : Fcx) (id : Nat) :
    (∀ t, fcx.node_types.lookup id = some t → node_ty fcx id = .ok t) ∧
    (fcx.node_types.lookup id = none → fcx.tainted_by_errors = true →
      node_ty fcx id = .ok Ty.error) ∧
    (fcx.node_types.lookup id = none → fcx.tainted_by_errors = false →
      node_ty fcx id = .error TypeckBug.noTypeForNode) ∧
    (∀ nodes : List Nat, (∀ n ∈ nodes, (fcx.node_types.lookup n).isSome) →
      ∀ n ∈ nodes, ∃ t, node_ty fcx n = .ok t) := by
  refine ⟨?_, ?_, ?_, ?_⟩
  · intro t h
    simp [node_ty, h]
  · intro h ht
    simp [node_ty, h, ht]
  · intro h ht
    simp [node_ty, h, ht]
  · intro nodes hall n hn
    rcases Option.isSome_iff_exists.mp (hall n hn) with ⟨t, ht⟩
    exact ⟨t, by simp [node_ty, ht]⟩

/-- Witness for C1 at concrete stores: a recorded node succeeds, a missing
node in a tainted body yields the error type, and a missing node in an
untainted body is a fatal bug. -/
theorem node_ty_missing_entry_asymmetry_witness :
    node_ty { node_types := [(1, Ty.bool)] } 1 = .ok Ty.bool ∧
    node_ty { tainted_by_errors := true } 2 = .ok Ty.error ∧
    node_ty ({} : Fcx) 2 = .error TypeckBug.noTypeForNode :=
  ⟨(node_ty_missing_entry_asymmetry _ 1).1 Ty.bool rfl,
   (node_ty_missing_entry_asymmetry _ 2).2.1 rfl rfl,
   (node_ty_missing_entry_asymmetry _ 2).2.2.1 rfl rfl⟩

/-- C5: the fallback policy, in order: a tainted body defaults the variable
to the error type; otherwise unconstrained integers default to `i32` and
unconstrained floats to `f64`; a diverging variable defaults to the
diverging default type; an opaque-type variable defaults to its opaque type
only under the all-variables mode; in every remaining case no fallback is
applied. -/
theorem fallback_if_possible_policy (tainted : Bool)
    (numeric : UnconstrainedNumeric) (diverges : Bool)
    (opaqueVar : Option Ty) (divergingDefault : Ty) (mode : FallbackMode) :
    (tainted = true →
      fallback_if_possible tainted numeric diverges opaqueVar
        divergingDefault mode = some Ty.error) ∧
    (tainted = false → numeric = .unconstrainedInt →
      fallback_if_possible tainted numeric diverges opaqueVar
        divergingDefault mode = some (.int .i32)) ∧
    (tainted = false → numeric = .unconstrainedFloat →
      fallback_if_possible tainted numeric diverges opaqueVar
        divergingDefault mode = some (.float .f64)) ∧
    (tainted = false → numeric = .neither → diverges = true →
      fallback_if_possible tainted numeric diverges opaqueVar
        divergingDefault mode = some divergingDefault) ∧
    (tainted = false → numeric = .neither → diverges = false →
      ∀ t, opaqueVar = some t →
        fallback_if_possible tainted numeric diverges opaqueVar
          divergingDefault .all = some t) ∧
    (tainted = false → numeric = .neither → diverges = false →
      opaqueVar = none →
      fallback_if_possible tainted numeric diverges opaqueVar
        divergingDefault mode = none) ∧
    (tainted = false → numeric = .neither → diverges = false →
      fallback_if_possible tainted numeric diverges opaqueVar
        divergingDefault .noOpaque = none) := by
  refine ⟨?_, ?_, ?_, ?_, ?_, ?_, ?_⟩
  · intro h; simp [fallback_if_possible, h]
  · intro h hn; simp [fallback_if_possible, h, hn]
  · intro h hn; simp [fallback_if_possible, h, hn]
  · intro h hn hd; simp [fallback_if_possible, h, hn, hd]
  · intro h hn hd t ho; simp [fallback_if_possible, h, hn, hd, ho]
  · intro h hn hd ho
    cases mode <;> simp [fallback_if_possible, h, hn, hd, ho]
  · intro h hn hd; simp [fallback_if_possible, h, hn, hd]

/-- Witness for C5 at concrete inputs, one per policy case. -/
theorem fallback_if_possible_policy_witness :
    fallback_if_possible true .neither false none Ty.unit .all
      = some Ty.error ∧
    fallback_if_possible false .unconstrainedInt false none Ty.unit .all
      = some (.int .i32) ∧
    fallback_if_possible false .unconstrainedFloat false none Ty.unit .all
      = some (.float .f64) ∧
    fallback_if_possible false .neither true none Ty.never .all
      = some Ty.never ∧
    fallback_if_possible false .neither false (some (Ty.opaqueType 7))
      Ty.unit .all = some (Ty.opaqueType 7) ∧
    fallback_if_possible false .neither false none Ty.unit .all = none ∧
    fallback_if_possible false .neither false (some (Ty.opaqueType 7))
      Ty.unit .noOpaque = none :=
  ⟨(fallback_if_possible_policy true .neither false none Ty.unit .all).1 rfl,
   (fallback_if_possible_policy false .unconstrainedInt false none Ty.unit
      .all).2.1 rfl rfl,
   (fallback_if_possible_policy false .unconstrainedFloat false none Ty.unit
      .all).2.2.1 rfl rfl,
   (fallback_if_possible_policy false .neither true none Ty.never
      .all).2.2.2.1 rfl rfl rfl,
   (fallback_if_possible_policy false .neither false (some (Ty.opaqueType 7))
      Ty.unit .all).2.2.2.2.1 rfl rfl rfl (Ty.opaqueType 7) rfl,
   (fallback_if_possible_policy false .neither false none Ty.unit
      .all).2.2.2.2.2.1 rfl rfl rfl rfl,
   (fallback_if_possible_policy false .neither false (some (Ty.opaqueType 7))
      Ty.unit .noOpaque).2.2.2.2.2.2 rfl rfl rfl⟩

/-- C6: when the body's has-errors flag is set or the accumulator's type
contains an error type, the type recorded for the block is the generic
error type. -/
theorem finish_block_forces_error_type (fcx : Fcx) (blkId : Nat)
    (accum : Ty)
    (h : fcx.has_errors = true ∨ accum.references_error = true) :
    (finish_block fcx blkId accum).node_types.lookup blkId
      = some Ty.error := by
  rcases h with h | h <;>
    simp [finish_block, write_ty, h, Ty.references_error]

/-- Witness for C6: a block whose body set the has-errors flag is recorded
with the error type even though the accumulator computed `bool`. -/
theorem finish_block_forces_error_type_witness :
    (finish_block { has_errors := true } 3 Ty.bool).node_types.lookup 3
      = some Ty.error :=
  finish_block_forces_error_type { has_errors := true } 3 Ty.bool
    (Or.inl rfl)

/-- A match inside the left part of an append is found at the same
position. -/
theorem firstMatchPos_append_left (p : α → Bool) (l1 l2 : List α) (n : Nat)
    (h : firstMatchPos p l1 = some n) :
    firstMatchPos p (l1 ++ l2) = some n := by
  induction l1 generalizing n with
  | nil => simp [firstMatchPos] at h
  | cons x xs ih =>
    rw [List.cons_append]
    by_cases hx : p x
    · simp [firstMatchPos, hx] at h ⊢
      exact h
    · simp only [firstMatchPos, hx, Bool.false_eq_true, if_false] at h ⊢
      rcases Option.map_eq_some'.mp h with ⟨m, hm, rfl⟩
      rw [ih m hm]
      rfl

/-- When nothing in the left part matches, the first match is found in the
right part, shifted by the left part's length. -/
theorem firstMatchPos_append_right (p : α → Bool) (l1 l2 : List α)
    (h : ∀ x ∈ l1, p x = false) :
    firstMatchPos p (l1 ++ l2)
      = (firstMatchPos p l2).map (· + l1.length) := by
  induction l1 with
  | nil => cases h2 : firstMatchPos p l2 <;> simp [h2]
  | cons x xs ih =>
    have hx : p x = false := h x (by simp)
    have hxs : ∀ y ∈ xs, p y = false := fun y hy => h y (by simp [hy])
    rw [List.cons_append]
    simp only [firstMatchPos, hx, Bool.false_eq_true, if_false, ih hxs,
      Option.map_map, List.length_cons]
    cases firstMatchPos p l2 with
    | none => rfl
    | some m =>
      simp only [Option.map_some', Function.comp_apply, Option.some.injEq]
      omega

/-- A found position is inside the list. -/
theorem firstMatchPos_lt_length (p : α → Bool) (l : List α) (n : Nat)
    (h : firstMatchPos p l = some n) : n < l.length := by
  induction l generalizing n with
  | nil => simp [firstMatchPos] at h
  | cons x xs ih =>
    by_cases hx : p x
    · simp [firstMatchPos, hx] at h
      simp only [List.length_cons]
      omega
    · simp only [firstMatchPos, hx, Bool.false_eq_true, if_false] at h
      rcases Option.map_eq_some'.mp h with ⟨m, hm, rfl⟩
      have := ih m hm
      simp only [List.length_cons]
      omega

/-- A list containing a match has a first match. -/
theorem firstMatchPos_isSome_of_mem (p : α → Bool) (l : List α) (x : α)
    (hx : x ∈ l) (hp : p x = true) : ∃ n, firstMatchPos p l = some n := by
  induction l with
  | nil => cases hx
  | cons y ys ih =>
    by_cases hy : p y
    · exact ⟨0, by simp [firstMatchPos, hy]⟩
    · rcases List.mem_cons.mp hx with rfl | hm
      · exact absurd hp (by simp [hy])
      · rcases ih hm with ⟨n, hn⟩
        exact ⟨n + 1, by simp [firstMatchPos, hy, hn]⟩

/-- The pass with flag `b` emits the check event of every argument whose
closure-ness is `b`, at its absolute index, with the positional formal and
coercion-target types. -/
theorem checkPass_event_mem (args : List Arg) (fts ets : List Ty)
    (idx : Nat) (b : Bool) (k : Nat) (hk : k < args.length)
    (hb : (args.getD k defArg).isClosure = b) :
    CheckEvent.checkedArg (idx + k) (fts.getD (idx + k) Ty.error)
      (ets.getD (idx + k) Ty.error)
      ∈ (checkPass args fts ets idx b).1 := by
  induction args generalizing idx k with
  | nil => exact absurd hk (by simp)
  | cons a rest ih =>
    cases k with
    | zero =>
      simp only [List.getD_cons_zero] at hb
      simp [checkPass, hb]
    | succ k0 =>
      have hk0 : k0 < rest.length := by simpa using hk
      have hb0 : (rest.getD k0 defArg).isClosure = b := by simpa using hb
      have hrec := ih (idx + 1) k0 hk0 hb0
      have harith : idx + 1 + k0 = idx + (k0 + 1) := by omega
      rw [harith] at hrec
      by_cases hab : a.isClosure = b
      · simp only [checkPass, hab, if_true]
        exact List.mem_cons_of_mem _ hrec
      · simp only [checkPass, hab, if_false]
        exact hrec

/-- The pass with flag `b` records a type for every argument whose
closure-ness is `b`. -/
theorem checkPass_write_mem (args : List Arg) (fts ets : List Ty)
    (idx : Nat) (b : Bool) (a : Arg) (ha : a ∈ args)
    (hb : a.isClosure = b) :
    (a.id, a.ty) ∈ (checkPass args fts ets idx b).2 := by
  induction args generalizing idx with
  | nil => cases ha
  | cons x rest ih =>
    rcases List.mem_cons.mp ha with rfl | hm
    · simp [checkPass, hb]
    · by_cases hx : x.isClosure = b
      · simp only [checkPass, hx, if_true]
        exact List.mem_cons_of_mem _ (ih (idx + 1) hm)
      · simp only [checkPass, hx, if_false]
        exact ih (idx + 1) hm

/-- Every event of one pass is the check of an argument whose closure-ness
is the pass's flag, at its absolute index. -/
theorem checkPass_event_shape (args : List Arg) (fts ets : List Ty)
    (idx : Nat) (b : Bool) :
    ∀ e ∈ (checkPass args fts ets idx b).1, ∃ off, off < args.length ∧
      e = CheckEvent.checkedArg (idx + off) (fts.getD (idx + off) Ty.error)
        (ets.getD (idx + off) Ty.error) ∧
      (args.getD off defArg).isClosure = b := by
  induction args generalizing idx with
  | nil => intro e he; simp [checkPass] at he
  | cons a rest ih =>
    intro e he
    by_cases hab : a.isClosure = b
    · simp only [checkPass, hab, if_true] at he
      rcases List.mem_cons.mp he with rfl | hm
      · exact ⟨0, by simp, by simp, by simpa using hab⟩
      · rcases ih (idx + 1) e hm with ⟨off, holt, hoeq, hocl⟩
        refine ⟨off + 1, by simpa using holt, ?_, by simpa using hocl⟩
        rw [hoeq]
        have harith : idx + 1 + off = idx + (off + 1) := by omega
        rw [harith]
    · simp only [checkPass, hab, if_false] at he
      rcases ih (idx + 1) e he with ⟨off, holt, hoeq, hocl⟩
      refine ⟨off + 1, by simpa using holt, ?_, by simpa using hocl⟩
      rw [hoeq]
      have harith : idx + 1 + off = idx + (off + 1) := by omega
      rw [harith]

/-- The C-variadic trailing pass checks every extra argument (event and
recorded type), at its absolute index. -/
theorem variadicPass_mem (args : List Arg) (idx : Nat) (k : Nat)
    (hk : k < args.length) :
    CheckEvent.checkedVariadicExtra (idx + k) ∈ (variadicPass args idx).1 ∧
    ((args.getD k defArg).id, (args.getD k defArg).ty)
      ∈ (variadicPass args idx).2.1 := by
  induction args generalizing idx k with
  | nil => exact absurd hk (by simp)
  | cons a rest ih =>
    cases k with
    | zero => exact ⟨by simp [variadicPass], by simp [variadicPass]⟩
    | succ k0 =>
      have hk0 : k0 < rest.length := by simpa using hk
      have hrec := ih (idx + 1) k0 hk0
      have harith : idx + 1 + k0 = idx + (k0 + 1) := by omega
      rw [harith] at hrec
      refine ⟨?_, ?_⟩
      · simp only [variadicPass]
        exact List.mem_cons_of_mem _ hrec.1
      · simp only [variadicPass, List.getD_cons_succ]
        exact List.mem_cons_of_mem _ hrec.2

/-- The C-variadic trailing pass emits the promotion diagnostic for index
`j` exactly when the argument at that index has an implicitly promoted
type. -/
theorem variadicPass_diag_iff (args : List Arg) (idx j : Nat)
    (cast : String) :
    Diag.variadicPromotion j cast ∈ (variadicPass args idx).2.2 ↔
      ∃ k, k < args.length ∧ j = idx + k ∧
        variadicDiag (args.getD k defArg).ty = some cast := by
  induction args generalizing idx with
  | nil => simp [variadicPass]
  | cons a rest ih =>
    constructor
    · intro h
      simp only [variadicPass] at h
      rcases List.mem_append.mp h with hl | hr
      · cases hv : variadicDiag a.ty with
        | none => rw [hv] at hl; cases hl
        | some c =>
          rw [hv] at hl
          simp only [List.mem_singleton, Diag.variadicPromotion.injEq] at hl
          rcases hl with ⟨hj, hcast⟩
          exact ⟨0, by simp, by omega, by simp [hv, hcast]⟩
      · rcases (ih (idx + 1)).mp hr with ⟨k, hkl, hje, hkd⟩
        exact ⟨k + 1, by simpa using hkl, by omega, by simpa using hkd⟩
    · rintro ⟨k, hkl, rfl, hkd⟩
      simp only [variadicPass]
      cases k with
      | zero =>
        simp only [List.getD_cons_zero] at hkd
        exact List.mem_append.mpr (Or.inl (by simp [hkd]))
      | succ k0 =>
        refine List.mem_append.mpr (Or.inr ?_)
        exact (ih (idx + 1)).mpr
          ⟨k0, by simpa using hkl, by omega, by simpa using hkd⟩

/-- Promotion diagnostics are never arity diagnostics. -/
theorem variadicPass_diag_not_arity (args : List Arg) (idx : Nat) :
    ∀ d ∈ (variadicPass args idx).2.2, isArityDiag d = false := by
  induction args generalizing idx with
  | nil => simp [variadicPass]
  | cons a rest ih =>
    intro d hd
    simp only [variadicPass] at hd
    rcases List.mem_append.mp hd with hl | hr
    · cases hv : variadicDiag a.ty with
      | none => rw [hv] at hl; cases hl
      | some c =>
        rw [hv] at hl
        simp only [List.mem_singleton] at hl
        rw [hl]
        rfl
    · exact ih (idx + 1) d hr

/-- Every position of the manufactured error-type list reads the error
type. -/
theorem err_args_getD (n i : Nat) :
    (err_args n).getD i Ty.error = Ty.error := by
  rcases Nat.lt_or_ge i n with h | h
  · simp [err_args, List.getD_eq_getElem?_getD, List.getElem?_replicate, h]
  · have : (err_args n).length ≤ i := by simpa [err_args] using h
    simp [List.getD_eq_getElem?_getD, List.getElem?_eq_none this]

/-- Positional lookup into a dropped list. -/
theorem getD_drop_add (l : List α) (n k : Nat) (d : α) :
    (l.drop n).getD k d = l.getD (n + k) d := by
  simp [List.getD_eq_getElem?_getD, List.getElem?_drop]

/-- The promotion screen fires exactly on the implicitly promoted kinds. -/
theorem variadicDiag_eq_some_iff (t : Ty) :
    (∃ c, variadicDiag t = some c) ↔
      (t = .float .f32 ∨ t = .int .i8 ∨ t = .int .i16 ∨ t = .bool ∨
       t = .uint .u8 ∨ t = .uint .u16 ∨ ∃ d, t = .fnDef d) := by
  cases t <;> try simp [variadicDiag]
  case int it => cases it <;> simp [variadicDiag]
  case uint ut => cases ut <;> simp [variadicDiag]
  case float ft => cases ft <;> simp [variadicDiag]

/-- C10: `write_method_call` stores a user type annotation only when the
method's substitution is not the no-op and the method has generic
parameters of its own; the stored annotation keeps no user `Self` type and
replaces every parent-level (impl/trait) slot of the substitution with a
fresh inference variable (canonicalized to a bound variable), keeping the
method's own generic arguments. -/
theorem write_method_call_user_ann_policy (fcx : Fcx)
    (generics : Nat → Generics) (fresh : Nat → GenArg) (hir_id : Nat)
    (m : MethodCallee)
    (hfree : fcx.user_provided_types.lookup hir_id = none)
    (hfresh : ∀ i, ∃ v, fresh i = GenArg.inferVar v)
    (hlen : m.substs.length
      = (generics m.def_id).parent_count + (generics m.def_id).num_params) :
    ∀ c, List.lookup hir_id
        (write_method_call fcx generics fresh hir_id m).user_provided_types
        = some c →
      m.substs.isEmpty = false ∧
      ¬ (generics m.def_id).num_params = 0 ∧
      c.value.user_self_ty = none ∧
      c.value.substs.length = m.substs.length ∧
      (∀ i, i < (generics m.def_id).parent_count →
        ∃ b, c.value.substs.getD i (.ty .error) = .boundVar b) ∧
      (∀ i, (generics m.def_id).parent_count ≤ i → i < m.substs.length →
        (m.substs.getD i (.ty .error)).isInfVar = false →
        c.value.substs.getD i (.ty .error)
          = m.substs.getD i (.ty .error)) := by
  intro c hc
  by_cases he : m.substs.isEmpty
  · rw [show write_method_call fcx generics fresh hir_id m
        = write_substs (write_resolution fcx hir_id (.ok .assocFn m.def_id))
            hir_id m.substs from by simp [write_method_call, he]] at hc
    rw [show (write_substs (write_resolution fcx hir_id
          (.ok .assocFn m.def_id)) hir_id m.substs).user_provided_types
        = fcx.user_provided_types from by
          simp [write_substs, write_resolution, he]] at hc
    rw [hfree] at hc
    exact absurd hc (by simp)
  · by_cases hp : (generics m.def_id).num_params = 0
    · rw [show write_method_call fcx generics fresh hir_id m
          = write_substs (write_resolution fcx hir_id
              (.ok .assocFn m.def_id)) hir_id m.substs from by
            simp [write_method_call, he, hp]] at hc
      rw [show (write_substs (write_resolution fcx hir_id
            (.ok .assocFn m.def_id)) hir_id m.substs).user_provided_types
          = fcx.user_provided_types from by
            simp [write_substs, write_resolution, he]] at hc
      rw [hfree] at hc
      exact absurd hc (by simp)
    · have htotal : (for_item
          ((generics m.def_id).parent_count + (generics m.def_id).num_params)
          (generics m.def_id).parent_count m.substs fresh).length
          = m.substs.length := by
        simp [for_item, hlen]
      set cann := canonicalize_user_type_ann m.def_id
        { substs := for_item
            ((generics m.def_id).parent_count
              + (generics m.def_id).num_params)
            (generics m.def_id).parent_count m.substs fresh,
          user_self_ty := none } with hcann
      have hwm : write_method_call fcx generics fresh hir_id m
          = write_user_type_ann
              (write_substs (write_resolution fcx hir_id
                (.ok .assocFn m.def_id)) hir_id m.substs) hir_id cann := by
        simp [write_method_call, he, hp, hcann]
      rw [hwm] at hc
      by_cases hid : cann.is_identity
      · rw [show (write_user_type_ann (write_substs (write_resolution fcx
              hir_id (.ok .assocFn m.def_id)) hir_id m.substs) hir_id
              cann).user_provided_types = fcx.user_provided_types from by
            simp [write_user_type_ann, write_substs, write_resolution,
              he, hid]] at hc
        rw [hfree] at hc
        exact absurd hc (by simp)
      · rw [show (write_user_type_ann (write_substs (write_resolution fcx
              hir_id (.ok .assocFn m.def_id)) hir_id m.substs) hir_id
              cann).user_provided_types
            = (hir_id, cann) :: fcx.user_provided_types from by
            simp [write_user_type_ann, write_substs, write_resolution,
              he, hid]] at hc
        have hceq : c = cann := by
          simpa [List.lookup] using hc.symm
        subst hceq
        refine ⟨by simpa using he, hp, by simp [hcann,
          canonicalize_user_type_ann], ?_, ?_, ?_⟩
        · simp [hcann, canonicalize_user_type_ann, canonicalizeArgs_length,
            htotal]
        · intro i hi
          have hi2 : i < (for_item
              ((generics m.def_id).parent_count
                + (generics m.def_id).num_params)
              (generics m.def_id).parent_count m.substs fresh).length := by
            rw [htotal, hlen]
            exact lt_of_lt_of_le hi (Nat.le_add_right _ _)
          have hpre : (for_item
              ((generics m.def_id).parent_count
                + (generics m.def_id).num_params)
              (generics m.def_id).parent_count m.substs fresh).getD i
              (.ty .error) = fresh i := by
            rw [for_item_getD _ _ _ _ i (by rw [← hlen, ← htotal]; exact hi2)]
            simp [hi]
          rcases hfresh i with ⟨v, hv⟩
          have hinf : ((for_item
              ((generics m.def_id).parent_count
                + (generics m.def_id).num_params)
              (generics m.def_id).parent_count m.substs fresh).getD i
              (.ty .error)).isInfVar = true := by
            rw [hpre, hv]; rfl
          rcases (canonicalizeArgs_getD _ [] 0 i hi2).1 hinf with ⟨b, hb⟩
          exact ⟨b, by simpa [hcann, canonicalize_user_type_ann] using hb⟩
        · intro i hle hi hninf
          have hi2 : i < (for_item
              ((generics m.def_id).parent_count
                + (generics m.def_id).num_params)
              (generics m.def_id).parent_count m.substs fresh).length := by
            rw [htotal]; exact hi
          have hpre : (for_item
              ((generics m.def_id).parent_count
                + (generics m.def_id).num_params)
              (generics m.def_id).parent_count m.substs fresh).getD i
              (.ty .error) = m.substs.getD i (.ty .error) := by
            rw [for_item_getD _ _ _ _ i (by rw [← hlen, ← htotal]; exact hi2)]
            simp [Nat.not_lt_of_le hle]
          have := (canonicalizeArgs_getD _ [] 0 i hi2).2
            (by rw [hpre]; exact hninf)
          rw [hpre] at this
          simpa [hcann, canonicalize_user_type_ann] using this

/-- Witness for C10: a method with one parent (`Self`) parameter and one own
parameter stores an annotation whose parent slot is a canonical variable
and whose own slot keeps the user's argument. -/
theorem write_method_call_user_ann_policy_witness :
    (write_method_call ({} : Fcx) (fun _ => ⟨1, 1⟩)
        (fun i => GenArg.inferVar (100 + i)) 4
        ⟨9, [GenArg.ty (Ty.adt 3), GenArg.ty Ty.bool],
          ⟨[], Ty.unit, false⟩⟩).user_provided_types.lookup 4
      = some ⟨9, ⟨[GenArg.boundVar 0, GenArg.ty Ty.bool], none⟩⟩ ∧
    (⟨9, ⟨[GenArg.boundVar 0, GenArg.ty Ty.bool],
        none⟩⟩ : CanonicalUserType).value.user_self_ty = none := by
  have h := write_method_call_user_ann_policy ({} : Fcx) (fun _ => ⟨1, 1⟩)
    (fun i => GenArg.inferVar (100 + i)) 4
    ⟨9, [GenArg.ty (Ty.adt 3), GenArg.ty Ty.bool], ⟨[], Ty.unit, false⟩⟩
    rfl (fun i => ⟨100 + i, rfl⟩) rfl
    ⟨9, ⟨[GenArg.boundVar 0, GenArg.ty Ty.bool], none⟩⟩ rfl
  exact ⟨rfl, h.2.2.1⟩

/-- C2 counterexample: composing a new dereference-plus-borrow chain onto an
expression whose existing chain is a single dereference — the direction the
claim describes as collapsed — is in fact the fatal composition bug. -/
theorem apply_adjustments_direction_counterexample :
    apply_adjustments
      { adjustments := [(0, [⟨Adjust.deref false, Ty.int .i32⟩])] } 0
      [⟨Adjust.deref false, Ty.int .i32⟩,
       ⟨Adjust.borrow (AutoBorrow.ref .not), Ty.ref (Ty.int .i32)⟩]
      = .error TypeckBug.composeAdjustments := rfl

/-- C2 (amended): composing a nonempty chain onto an existing chain obeys
exactly three cases — a single never-to-any existing chain absorbs anything
(the entry is kept unchanged), a new chain beginning with a dereference
replaces an existing dereference-plus-reference-borrow (reborrow) chain,
and every other combination is the fatal composition bug.  (An empty new
chain is discarded before composition is ever attempted.) -/
theorem apply_adjustments_composition (fcx : Fcx) (exprId : Nat)
    (adj existing : List Adjustment)
    (hne : adj.isEmpty = false)
    (hex : fcx.adjustments.lookup exprId = some existing) :
    apply_adjustments fcx exprId adj =
      if isNeverToAnyChain existing then .ok fcx
      else if isDerefReborrowChain existing && startsWithDeref adj then
        .ok { fcx with adjustments := (exprId, adj) :: fcx.adjustments }
      else .error TypeckBug.composeAdjustments := by
  simp only [apply_adjustments, hne, hex, Bool.false_eq_true, if_false]
  rcases adj with _ | ⟨⟨ka, ta⟩, resta⟩
  · simp [List.isEmpty] at hne
  · rcases existing with _ | ⟨⟨k1, t1⟩, _ | ⟨⟨k2, t2⟩, _ | ⟨⟨k3, t3⟩, rest3⟩⟩⟩
    · cases ka <;>
        simp [isNeverToAnyChain, isDerefReborrowChain, startsWithDeref]
    · cases k1 <;> cases ka <;>
        simp [isNeverToAnyChain, isDerefReborrowChain, startsWithDeref]
    · cases k1 <;> cases k2 <;> cases ka <;>
        first
        | (simp [isNeverToAnyChain, isDerefReborrowChain, startsWithDeref];
           done)
        | (rename_i b _; cases b <;>
            simp [isNeverToAnyChain, isDerefReborrowChain, startsWithDeref])
    · cases k1 <;> cases k2 <;> cases ka <;>
        simp [isNeverToAnyChain, isDerefReborrowChain, startsWithDeref]

/-- Witness for C2 (amended): composing onto `[NeverToAny]` keeps the entry,
at a concrete store. -/
theorem apply_adjustments_composition_witness :
    apply_adjustments
      { adjustments := [(1, [⟨Adjust.neverToAny, Ty.never⟩])] } 1
      [⟨Adjust.deref false, Ty.bool⟩]
      = .ok { adjustments := [(1, [⟨Adjust.neverToAny, Ty.never⟩])] } := by
  have h := apply_adjustments_composition
    { adjustments := [(1, [⟨Adjust.neverToAny, Ty.never⟩])] } 1
    [⟨Adjust.deref false, Ty.bool⟩] [⟨Adjust.neverToAny, Ty.never⟩] rfl rfl
  simpa [isNeverToAnyChain] using h

/-- C8: `write_ty` always records the type, and sets the local has-errors
flag and the body-wide taint flag exactly when the written type contains an
error type (never clearing either flag otherwise). -/
theorem write_ty_records_and_taints (fcx : Fcx) (id : Nat) (ty : Ty) :
    (write_ty fcx id ty).node_types.lookup id = some ty ∧
    (write_ty fcx id ty).has_errors
      = (fcx.has_errors || ty.references_error) ∧
    (write_ty fcx id ty).tainted_by_errors
      = (fcx.tainted_by_errors || ty.references_error) := by
  cases h : ty.references_error <;> simp [write_ty, h]

/-- C9: for a type containing an error type, `require_type_is_sized`,
`require_type_is_sized_deferred` and `register_bound` are no-ops: no
obligation is registered and nothing is queued. -/
theorem error_type_generates_no_obligations (fcx : Fcx) (ty : Ty)
    (cause span code def_id : Nat) (h : ty.references_error = true) :
    require_type_is_sized fcx ty cause = fcx ∧
    require_type_is_sized_deferred fcx ty span code = fcx ∧
    register_bound fcx ty def_id cause = fcx := by
  refine ⟨?_, ?_, ?_⟩ <;>
    simp [require_type_is_sized, require_type_is_sized_deferred,
      register_bound, require_type_meets, h]

/-- Witness for C9 at the error type itself and an empty context. -/
theorem error_type_generates_no_obligations_witness :
    require_type_is_sized ({} : Fcx) Ty.error 0 = ({} : Fcx) ∧
    require_type_is_sized_deferred ({} : Fcx) Ty.error 0 0 = ({} : Fcx) ∧
    register_bound ({} : Fcx) Ty.error 5 0 = ({} : Fcx) :=
  error_type_generates_no_obligations ({} : Fcx) Ty.error 0 0 0 5 rfl

/-- C3: for a non-variadic, non-tuple-sugar call whose supplied arity
differs from the declared arity, exactly one arity diagnostic is emitted
(and the call's diagnostics are arity diagnostics only), every supplied
argument is checked against the manufactured error type, and every supplied
argument gets a recorded type. -/
theorem check_argument_types_arity_mismatch
    (fn_inputs expected_arg_tys : List Ty) (args : List Arg)
    (hne : ¬ args.length = fn_inputs.length) :
    (check_argument_types fn_inputs expected_arg_tys args false
        false).diags.countP isArityDiag = 1 ∧
    (∀ d ∈ (check_argument_types fn_inputs expected_arg_tys args false
        false).diags, isArityDiag d = true) ∧
    (∀ i, i < args.length → CheckEvent.checkedArg i Ty.error Ty.error
      ∈ (check_argument_types fn_inputs expected_arg_tys args false
          false).events) ∧
    (∀ a ∈ args, (a.id, a.ty)
      ∈ (check_argument_types fn_inputs expected_arg_tys args false
          false).writes) := by
  have hfe : ¬ fn_inputs.length = args.length := fun h => hne h.symm
  have hdiags : (check_argument_types fn_inputs expected_arg_tys args false
      false).diags = [Diag.arityMismatch ErrCode.e0061 fn_inputs.length
        args.length false
        (if expected_arg_tys.length = 1 ∧ args.length = 0 then
          (expected_arg_tys.headD Ty.error).is_unit
         else if fn_inputs.length = 1 ∧ args.length = 0 then
          (fn_inputs.headD Ty.error).is_unit
         else false)] := by
    simp [check_argument_types, reconcile_arity, hfe]
  have hev : (check_argument_types fn_inputs expected_arg_tys args false
        false).events
      = (checkPass args (err_args args.length) (err_args args.length) 0
          false).1
        ++ CheckEvent.oppSolve
          :: (checkPass args (err_args args.length) (err_args args.length)
              0 true).1 := by
    simp [check_argument_types, reconcile_arity, hfe, List.take_length,
      err_args]
  have hw : (check_argument_types fn_inputs expected_arg_tys args false
        false).writes
      = (checkPass args (err_args args.length) (err_args args.length) 0
          false).2
        ++ (checkPass args (err_args args.length) (err_args args.length)
            0 true).2 := by
    simp [check_argument_types, reconcile_arity, hfe, List.take_length,
      err_args]
  refine ⟨?_, ?_, ?_, ?_⟩
  · rw [hdiags]
    rfl
  · intro d hd
    rw [hdiags] at hd
    simp only [List.mem_singleton] at hd
    rw [hd]
    rfl
  · intro i hi
    rw [hev]
    by_cases hcl : (args.getD i defArg).isClosure = true
    · have hm := checkPass_event_mem args (err_args args.length)
        (err_args args.length) 0 true i hi hcl
      rw [Nat.zero_add, err_args_getD] at hm
      exact List.mem_append.mpr (Or.inr (List.mem_cons_of_mem _ hm))
    · have hcl2 : (args.getD i defArg).isClosure = false := by
        simpa using hcl
      have hm := checkPass_event_mem args (err_args args.length)
        (err_args args.length) 0 false i hi hcl2
      rw [Nat.zero_add, err_args_getD] at hm
      exact List.mem_append.mpr (Or.inl hm)
  · intro a ha
    rw [hw]
    by_cases hcl : a.isClosure = true
    · exact List.mem_append.mpr (Or.inr
        (checkPass_write_mem args _ _ 0 true a ha hcl))
    · have hcl2 : a.isClosure = false := by simpa using hcl
      exact List.mem_append.mpr (Or.inl
        (checkPass_write_mem args _ _ 0 false a ha hcl2))

/-- Witness for C3: a two-parameter callee called with three integer
arguments — one arity diagnostic, the third argument still checked against
the error type, its type still recorded. -/
theorem check_argument_types_arity_mismatch_witness :
    (check_argument_types [Ty.int .i32, Ty.int .i32] []
        [⟨7, false, Ty.int .i32⟩, ⟨8, false, Ty.int .i32⟩,
         ⟨9, false, Ty.int .i32⟩] false false).diags.countP isArityDiag
      = 1 ∧
    CheckEvent.checkedArg 2 Ty.error Ty.error
      ∈ (check_argument_types [Ty.int .i32, Ty.int .i32] []
          [⟨7, false, Ty.int .i32⟩, ⟨8, false, Ty.int .i32⟩,
           ⟨9, false, Ty.int .i32⟩] false false).events ∧
    ((9 : Nat), Ty.int .i32)
      ∈ (check_argument_types [Ty.int .i32, Ty.int .i32] []
          [⟨7, false, Ty.int .i32⟩, ⟨8, false, Ty.int .i32⟩,
           ⟨9, false, Ty.int .i32⟩] false false).writes := by
  have h := check_argument_types_arity_mismatch [Ty.int .i32, Ty.int .i32]
    [] [⟨7, false, Ty.int .i32⟩, ⟨8, false, Ty.int .i32⟩,
        ⟨9, false, Ty.int .i32⟩] (by decide)
  exact ⟨h.1, h.2.2.1 2 (by decide),
    h.2.2.2 ⟨9, false, Ty.int .i32⟩ (by decide)⟩

/-- C4 counterexample: an extra C-variadic argument of type `str` — a kind
outside any whitelist of implicitly-promotable primitives — is checked and
passes without any diagnostic, where the claim demands an explicit
diagnostic. -/
theorem variadic_extra_no_diag_counterexample :
    (check_argument_types [Ty.int .i32] []
        [⟨0, false, Ty.int .i32⟩, ⟨1, false, Ty.str⟩] true false).diags
      = [] ∧
    CheckEvent.checkedVariadicExtra 1
      ∈ (check_argument_types [Ty.int .i32] []
          [⟨0, false, Ty.int .i32⟩, ⟨1, false, Ty.str⟩] true
          false).events := by
  decide

/-- C4 (amended): for a C-variadic callee with enough arguments, no arity
diagnostic is emitted; each extra argument is checked against no formal
type and gets a recorded type; and an extra argument receives a diagnostic
exactly when its type is one of the kinds C would implicitly promote
(`f32`, `i8`, `i16`, `bool`, `u8`, `u16`, or a function item) — every
other kind passes without diagnostic. -/
theorem check_argument_types_variadic_extras
    (fn_inputs expected_arg_tys : List Ty) (args : List Arg)
    (hge : fn_inputs.length ≤ args.length) :
    (∀ d ∈ (check_argument_types fn_inputs expected_arg_tys args true
        false).diags, isArityDiag d = false) ∧
    (∀ i, fn_inputs.length ≤ i → i < args.length →
      CheckEvent.checkedVariadicExtra i
        ∈ (check_argument_types fn_inputs expected_arg_tys args true
            false).events ∧
      ((args.getD i defArg).id, (args.getD i defArg).ty)
        ∈ (check_argument_types fn_inputs expected_arg_tys args true
            false).writes ∧
      ((∃ cast, Diag.variadicPromotion i cast
        ∈ (check_argument_types fn_inputs expected_arg_tys args true
            false).diags) ↔
        ((args.getD i defArg).ty = .float .f32 ∨
         (args.getD i defArg).ty = .int .i8 ∨
         (args.getD i defArg).ty = .int .i16 ∨
         (args.getD i defArg).ty = .bool ∨
         (args.getD i defArg).ty = .uint .u8 ∨
         (args.getD i defArg).ty = .uint .u16 ∨
         ∃ d, (args.getD i defArg).ty = .fnDef d))) := by
  have hrec : reconcile_arity fn_inputs expected_arg_tys args.length
      args.length true false = (fn_inputs, expected_arg_tys, []) := by
    by_cases heq : fn_inputs.length = args.length
    · simp [reconcile_arity, heq]
    · simp [reconcile_arity, heq, hge]
  have hdiags : (check_argument_types fn_inputs expected_arg_tys args true
      false).diags = (variadicPass (args.drop fn_inputs.length)
      fn_inputs.length).2.2 := by
    simp [check_argument_types, hrec]
  have hev : (check_argument_types fn_inputs expected_arg_tys args true
        false).events
      = (checkPass (args.take fn_inputs.length) fn_inputs
          (if ¬ expected_arg_tys.isEmpty = true then expected_arg_tys
           else fn_inputs) 0 false).1
        ++ CheckEvent.oppSolve
          :: ((checkPass (args.take fn_inputs.length) fn_inputs
              (if ¬ expected_arg_tys.isEmpty = true then expected_arg_tys
               else fn_inputs) 0 true).1
            ++ (variadicPass (args.drop fn_inputs.length)
                fn_inputs.length).1) := by
    simp [check_argument_types, hrec]
  have hw : (check_argument_types fn_inputs expected_arg_tys args true
        false).writes
      = (checkPass (args.take fn_inputs.length) fn_inputs
          (if ¬ expected_arg_tys.isEmpty = true then expected_arg_tys
           else fn_inputs) 0 false).2
        ++ ((checkPass (args.take fn_inputs.length) fn_inputs
            (if ¬ expected_arg_tys.isEmpty = true then expected_arg_tys
             else fn_inputs) 0 true).2
          ++ (variadicPass (args.drop fn_inputs.length)
              fn_inputs.length).2.1) := by
    simp [check_argument_types, hrec]
  have hdroplen : ∀ i, fn_inputs.length ≤ i → i < args.length →
      i - fn_inputs.length < (args.drop fn_inputs.length).length := by
    intro i h1 h2
    rw [List.length_drop]
    omega
  refine ⟨?_, ?_⟩
  · intro d hd
    rw [hdiags] at hd
    exact variadicPass_diag_not_arity _ _ d hd
  · intro i h1 h2
    have hk := hdroplen i h1 h2
    have hmem := variadicPass_mem (args.drop fn_inputs.length)
      fn_inputs.length (i - fn_inputs.length) hk
    have hidx : fn_inputs.length + (i - fn_inputs.length) = i := by omega
    rw [hidx] at hmem
    have hgd : (args.drop fn_inputs.length).getD (i - fn_inputs.length)
        defArg = args.getD i defArg := by
      rw [getD_drop_add, hidx]
    rw [hgd] at hmem
    refine ⟨?_, ?_, ?_⟩
    · rw [hev]
      exact List.mem_append.mpr (Or.inr (List.mem_cons_of_mem _
        (List.mem_append.mpr (Or.inr hmem.1))))
    · rw [hw]
      exact List.mem_append.mpr (Or.inr (List.mem_append.mpr
        (Or.inr hmem.2)))
    · rw [← variadicDiag_eq_some_iff]
      constructor
      · rintro ⟨cast, hcast⟩
        rw [hdiags] at hcast
        rcases (variadicPass_diag_iff _ _ _ _).mp hcast
          with ⟨k, hkl, hje, hkd⟩
        have hki : k = i - fn_inputs.length := by omega
        rw [hki, hgd] at hkd
        exact ⟨cast, hkd⟩
      · rintro ⟨cast, hcast⟩
        refine ⟨cast, ?_⟩
        rw [hdiags]
        exact (variadicPass_diag_iff _ _ _ _).mpr
          ⟨i - fn_inputs.length, hk, by omega, by rw [hgd]; exact hcast⟩

/-- Witness for C4 (amended): an extra `f32` argument (an implicitly
promoted kind) is checked, recorded, and draws a promotion diagnostic. -/
theorem check_argument_types_variadic_extras_witness :
    CheckEvent.checkedVariadicExtra 1
      ∈ (check_argument_types [Ty.int .i32] []
          [⟨5, false, Ty.int .i32⟩, ⟨6, false, Ty.float .f32⟩] true
          false).events ∧
    ((6 : Nat), Ty.float .f32)
      ∈ (check_argument_types [Ty.int .i32] []
          [⟨5, false, Ty.int .i32⟩, ⟨6, false, Ty.float .f32⟩] true
          false).writes ∧
    Diag.variadicPromotion 1 "c_double"
      ∈ (check_argument_types [Ty.int .i32] []
          [⟨5, false, Ty.int .i32⟩, ⟨6, false, Ty.float .f32⟩] true
          false).diags := by
  have h := check_argument_types_variadic_extras [Ty.int .i32] []
    [⟨5, false, Ty.int .i32⟩, ⟨6, false, Ty.float .f32⟩] (by decide)
  have h1 := h.2 1 (by decide) (by decide)
  exact ⟨h1.1, by simpa using h1.2.1, by decide⟩

/-- C7 counterexample: in a C-variadic call whose fixed argument is a
closure and whose extra argument is not, the closure is checked before its
non-closure sibling — refuting the claim that no closure argument is ever
checked before a non-closure sibling of the same call. -/
theorem closure_checked_before_nonclosure_counterexample :
    (([⟨10, true, Ty.fnPtr⟩, ⟨11, false, Ty.int .i32⟩]
      : List Arg).getD 0 defArg).isClosure = true ∧
    (([⟨10, true, Ty.fnPtr⟩, ⟨11, false, Ty.int .i32⟩]
      : List Arg).getD 1 defArg).isClosure = false ∧
    checkedPosition (check_argument_types [Ty.fnPtr] []
        [⟨10, true, Ty.fnPtr⟩, ⟨11, false, Ty.int .i32⟩] true
        false).events 0 = some 1 ∧
    checkedPosition (check_argument_types [Ty.fnPtr] []
        [⟨10, true, Ty.fnPtr⟩, ⟨11, false, Ty.int .i32⟩] true
        false).events 1 = some 2 := by
  decide

/-- C7 (amended): in a non-C-variadic call, every non-closure argument is
checked strictly before the between-pass opportunistic solve, and the solve
strictly before every closure argument's check — so every non-closure
argument is checked before any closure argument. -/
theorem check_argument_types_two_phase
    (fn_inputs expected_arg_tys : List Ty) (args : List Arg)
    (tuple_arguments : Bool) (i j : Nat)
    (hi : i < args.length) (hj : j < args.length)
    (hic : (args.getD i defArg).isClosure = false)
    (hjc : (args.getD j defArg).isClosure = true) :
    ∃ pi po pj,
      checkedPosition (check_argument_types fn_inputs expected_arg_tys
        args false tuple_arguments).events i = some pi ∧
      firstMatchPos isOppSolve (check_argument_types fn_inputs
        expected_arg_tys args false tuple_arguments).events = some po ∧
      checkedPosition (check_argument_types fn_inputs expected_arg_tys
        args false tuple_arguments).events j = some pj ∧
      pi < po ∧ po < pj := by
  obtain ⟨fts, efs, hev⟩ : ∃ fts efs,
      (check_argument_types fn_inputs expected_arg_tys args false
        tuple_arguments).events
      = (checkPass args fts efs 0 false).1
        ++ CheckEvent.oppSolve :: (checkPass args fts efs 0 true).1 := by
    cases tuple_arguments with
    | false =>
      refine ⟨(reconcile_arity fn_inputs expected_arg_tys args.length
          args.length false false).1,
        (if ¬ (reconcile_arity fn_inputs expected_arg_tys args.length
            args.length false false).2.1.isEmpty = true
         then (reconcile_arity fn_inputs expected_arg_tys args.length
            args.length false false).2.1
         else (reconcile_arity fn_inputs expected_arg_tys args.length
            args.length false false).1), ?_⟩
      simp [check_argument_types, List.take_length]
    | true =>
      refine ⟨(reconcile_arity fn_inputs expected_arg_tys args.length 1
          false true).1,
        (if ¬ (reconcile_arity fn_inputs expected_arg_tys args.length 1
            false true).2.1.isEmpty = true
         then (reconcile_arity fn_inputs expected_arg_tys args.length 1
            false true).2.1
         else (reconcile_arity fn_inputs expected_arg_tys args.length 1
            false true).1), ?_⟩
      simp [check_argument_types, List.take_length]
  have hshape := checkPass_event_shape args fts efs 0 false
  have hno_opp : ∀ e ∈ (checkPass args fts efs 0 false).1,
      isOppSolve e = false := by
    intro e he
    rcases hshape e he with ⟨off, _, rfl, _⟩
    rfl
  have hno_j : ∀ e ∈ (checkPass args fts efs 0 false).1,
      eventChecksArg j e = false := by
    intro e he
    rcases hshape e he with ⟨off, _, rfl, hocl⟩
    by_cases hoj : j = off
    · rw [hoj] at hjc
      rw [hjc] at hocl
      cases hocl
    · simp [eventChecksArg, Nat.zero_add]
      omega
  -- position of the non-closure argument: inside the first pass
  have hmi := checkPass_event_mem args fts efs 0 false i hi hic
  have hpi_match : eventChecksArg i (CheckEvent.checkedArg (0 + i)
      (fts.getD (0 + i) Ty.error) (efs.getD (0 + i) Ty.error)) = true := by
    simp [eventChecksArg]
  rcases firstMatchPos_isSome_of_mem _ _ _ hmi hpi_match with ⟨pi, hpi⟩
  have hpi_lt := firstMatchPos_lt_length _ _ _ hpi
  -- position of the opportunistic solve: right after the first pass
  have hpo : firstMatchPos isOppSolve (check_argument_types fn_inputs
      expected_arg_tys args false tuple_arguments).events
      = some (0 + (checkPass args fts efs 0 false).1.length) := by
    rw [hev, firstMatchPos_append_right _ _ _ hno_opp]
    simp [firstMatchPos, isOppSolve]
  -- position of the closure argument: inside the second pass
  have hmj := checkPass_event_mem args fts efs 0 true j hj hjc
  have hpj_match : eventChecksArg j (CheckEvent.checkedArg (0 + j)
      (fts.getD (0 + j) Ty.error) (efs.getD (0 + j) Ty.error)) = true := by
    simp [eventChecksArg]
  rcases firstMatchPos_isSome_of_mem _ _ _ hmj hpj_match with ⟨q, hq⟩
  have hpj : checkedPosition (check_argument_types fn_inputs
      expected_arg_tys args false tuple_arguments).events j
      = some (q + 1 + (checkPass args fts efs 0 false).1.length) := by
    rw [checkedPosition, hev, firstMatchPos_append_right _ _ _ hno_j]
    simp only [firstMatchPos, eventChecksArg, Bool.false_eq_true, if_false,
      hq, Option.map_some', Option.map_map]
  refine ⟨pi, 0 + (checkPass args fts efs 0 false).1.length,
    q + 1 + (checkPass args fts efs 0 false).1.length, ?_, hpo, hpj, ?_, ?_⟩
  · rw [checkedPosition, hev]
    exact firstMatchPos_append_left _ _ _ pi hpi
  · omega
  · omega

/-- Witness for C7 (amended): a non-closure first argument and a closure
second argument are checked in positions 0 and 2, around the opportunistic
solve at position 1. -/
theorem check_argument_types_two_phase_witness :
    checkedPosition (check_argument_types [Ty.int .i32, Ty.int .i32] []
      [⟨1, false, Ty.int .i32⟩, ⟨2, true, Ty.int .i32⟩] false
      false).events 0 = some 0 ∧
    firstMatchPos isOppSolve (check_argument_types [Ty.int .i32,
      Ty.int .i32] [] [⟨1, false, Ty.int .i32⟩, ⟨2, true, Ty.int .i32⟩]
      false false).events = some 1 ∧
    checkedPosition (check_argument_types [Ty.int .i32, Ty.int .i32] []
      [⟨1, false, Ty.int .i32⟩, ⟨2, true, Ty.int .i32⟩] false
      false).events 1 = some 2 := by
  obtain ⟨pi, po, pj, h1, h2, h3, hlt1, hlt2⟩ :=
    check_argument_types_two_phase [Ty.int .i32, Ty.int .i32] []
      [⟨1, false, Ty.int .i32⟩, ⟨2, true, Ty.int .i32⟩] false 0 1
      (by decide) (by decide) (by decide) (by decide)
  have he1 : pi = 0 := Option.some.inj (h1.symm.trans (by decide))
  have he2 : po = 1 := Option.some.inj (h2.symm.trans (by decide))
  have he3 : pj = 2 := Option.some.inj (h3.symm.trans (by decide))
  exact ⟨he1 ▸ h1, he2 ▸ h2, he3 ▸ h3⟩

end RustcTypeck
